import Mathlib

/-!
Verification of the ozolsclubachievements analytics engine.

The definitions below are a shallow embedding of the aggregation logic in
`app/api/route.js` (the MongoDB pipelines), `lib/utils.js` and
`lib/rateLimit.js`.  Instants are modelled as integer milliseconds since an
epoch; MongoDB date operators that depend on the server timezone
(`$dateToString`, `$dateTrunc`, `$hour`) are modelled as components of an
abstract `TzEnv` environment, mirroring the `timezone: timeZone` arguments
in the source.  Fallible JavaScript primitives (`new Date(string)`) are
modelled as `Option`-returning functions.
-/

namespace OzolsClub

/-- An access-control entry event, mirroring the Mongoose `Entry` schema in
`app/api/route.js` (`username`, `lockId`, `entryTime`, `lockMac`,
`recordType`, `electricQuantity`).  `entryTime` is an instant in integer
milliseconds; `electricQuantity` is `Number|null` hence an `Option`. -/
structure Entry where
  username : String
  lockId : String
  entryTime : Int
  lockMac : String
  recordType : Int
  electricQuantity : Option Int
deriving DecidableEq, Repr

/-- The designated primary lock (`const PRIMARY_LOCK = '19228015'`). -/
def PRIMARY_LOCK : String := "19228015"

/-- Abstract model of the server-timezone-dependent MongoDB date operators
used by the pipelines (all invoked with `timezone: timeZone` in the source):
`dayStr` is `$dateToString` with format `%Y-%m-%d`, `dayTrunc` is
`$dateTrunc` with unit `day` (the instant of local midnight), `hourOf` is
`$hour`, and `monthStr` is `$dateToString` with format `%Y-%m`. -/
structure TzEnv where
  dayStr : Int → String
  dayTrunc : Int → Int
  hourOf : Int → Int
  monthStr : Int → String

/-- The `entryTime: { $gte: rangeStart, $lte: rangeEnd }` window predicate. -/
def matchWindow (rangeStart rangeEnd : Int) (e : Entry) : Bool :=
  rangeStart ≤ e.entryTime && e.entryTime ≤ rangeEnd

/-- The `$match` stage of `leaderboardAgg`:
`{ entryTime: { $gte: rangeStart, $lte: rangeEnd }, ...(lockId ? { lockId } : {}) }`.
The caller's `lockId` is a string where `""` is falsy (no filter), as in the
route. -/
def lbBase (es : List Entry) (rangeStart rangeEnd : Int) (lockId : String) :
    List Entry :=
  es.filter (fun e => matchWindow rangeStart rangeEnd e &&
    (lockId == "" || e.lockId == lockId))

/-- The `{ $match: { lockId: PRIMARY_LOCK } }` stage that opens each
month/season leaderboard facet. -/
def primaryOnly (es : List Entry) : List Entry :=
  es.filter (fun e => e.lockId == PRIMARY_LOCK)

/-! Section: Streak calculator

The `$reduce` expression shared by `topLongestStreaks`, the analytics
`streaks` facet, the profile `longestStreak` facet and the season
`streakAgg`: accumulator `{ last: null, curr: 0, best: 0 }`, and a day is
consecutive iff `$divide [$subtract [$$this, $$value.last], 86400000]`
equals `1`.  Since `$divide` is exact division, the quotient equals `1`
exactly when the raw millisecond difference equals `86400000`. -/

/-- Accumulator of the streak `$reduce` (`{ last, curr, best }`). -/
structure StreakState where
  last : Option Int
  curr : Int
  best : Int
deriving DecidableEq, Repr

/-- One step of the streak `$reduce`: `nextCurr` is `curr + 1` when the
previous day exists and the millisecond difference is exactly one 24h day,
else `1`; `best` is replaced by `nextCurr` when strictly greater. -/
def streakStep (v : StreakState) (t : Int) : StreakState :=
  let nextCurr : Int :=
    match v.last with
    | some l => if t - l = 86400000 then v.curr + 1 else 1
    | none => 1
  { last := some t, curr := nextCurr,
    best := if nextCurr > v.best then nextCurr else v.best }

/-- The whole streak `$reduce` over an ordered list of (truncated) day
instants, from initial value `{ last: null, curr: 0, best: 0 }`. -/
def streakReduce (days : List Int) : StreakState :=
  days.foldl streakStep { last := none, curr := 0, best := 0 }

/-- The season route reads `streakObj.best || 0` as the longest streak and
`streakObj.curr || 0` as the current streak, with `streakObj` defaulting to
`{ curr: 0, best: 0 }` when the aggregation returned no row (empty input).
Since `streakReduce [] = { last := none, curr := 0, best := 0 }`, both
paths agree with reading `curr`/`best` off `streakReduce`. -/
def seasonStreakResult (days : List Int) : Int × Int :=
  ((streakReduce days).curr, (streakReduce days).best)

lemma streakStep_best_ge_curr (v : StreakState) (t : Int) :
    (streakStep v t).curr ≤ (streakStep v t).best := by
  unfold streakStep
  dsimp only
  split <;> omega

lemma streakReduce_best_ge_curr_aux (days : List Int) (v : StreakState)
    (h : v.curr ≤ v.best) :
    (days.foldl streakStep v).curr ≤ (days.foldl streakStep v).best := by
  induction days generalizing v with
  | nil => simpa using h
  | cons d rest ih =>
    simpa using ih (streakStep v d) (streakStep_best_ge_curr v d)

lemma streakReduce_best_ge_curr (days : List Int) :
    (streakReduce days).curr ≤ (streakReduce days).best :=
  streakReduce_best_ge_curr_aux days _ (by simp)

/-- Ordered distinct day instants of one user: the `$addFields day:
$dateTrunc`, `$group {_id: {u, d}}`, `$sort {'_id.u': 1, '_id.d': 1}`,
`$group {_id: '$_id.u', days: {$push: '$_id.d'}}` chain restricted to one
user: the user's distinct truncated days in ascending order. -/
def userDayTruncs (tz : TzEnv) (es : List Entry) (u : String) : List Int :=
  List.insertionSort (· ≤ ·)
    (((es.filter (fun e => e.username == u)).map
      (fun e => tz.dayTrunc e.entryTime)).dedup)

/-- Per-user longest streak (`$$res.best`) as computed by the
`topLongestStreaks`, `streaks` and `longestStreak` pipelines. -/
def streakBestOf (tz : TzEnv) (es : List Entry) (u : String) : Int :=
  (streakReduce (userDayTruncs tz es u)).best

/-! Section: A model timezone with a DST fall-back transition

`$dateTrunc`/`$hour` are evaluated with the server's IANA timezone
(`Intl.DateTimeFormat().resolvedOptions().timeZone`).  To settle claim C2 we
model such a zone with one fall-back transition: offset `+3h` before the
transition instant and `+2h` after (e.g. Europe/Riga around
2025-10-26T01:00Z, EEST to EET).  Instants are relative to an epoch placed
at 00:00 UTC on the transition day. -/

/-- UTC instant of the model fall-back transition (01:00 UTC). -/
def fallBackTransition : Int := 3600000

/-- UTC offset (ms) of the model timezone at an instant. -/
def modelOffset (t : Int) : Int :=
  if t < fallBackTransition then 10800000 else 7200000

/-- Local calendar-day index of an instant in the model timezone. -/
def modelLocalDay (t : Int) : Int := (t + modelOffset t).fdiv 86400000

/-- `$dateTrunc { unit: 'day' }` in the model timezone: the UTC instant of
local midnight of the instant's local calendar day. -/
def modelDayTrunc (t : Int) : Int :=
  let d := modelLocalDay t
  let beforeRule := d * 86400000 - 10800000
  if beforeRule < fallBackTransition then beforeRule else d * 86400000 - 7200000

/-- `$hour` in the model timezone. -/
def modelHour (t : Int) : Int := ((t + modelOffset t).fdiv 3600000) % 24

/-- The full model `TzEnv` (day strings render the local day index, month
strings render a 30-day month index; only their equality matters to the
pipelines). -/
def modelTz : TzEnv :=
  { dayStr := fun t => toString (modelLocalDay t)
    dayTrunc := modelDayTrunc
    hourOf := modelHour
    monthStr := fun t => toString ((modelLocalDay t).fdiv 30) }

/-- Claim C2 counterexample: the instants `0` and `86400000` lie in
consecutive local calendar days of the model timezone, but their truncated
day instants are 25 hours (90000000 ms) apart because of the fall-back
transition, so the streak calculator resets instead of extending: the
longest streak over these two consecutive active days is 1, not 2.  The
claim asserts such DST-spanning consecutive days still count as
consecutive. -/
theorem streak_dst_break :
    modelLocalDay 86400000 = modelLocalDay 0 + 1 ∧
    modelDayTrunc 86400000 - modelDayTrunc 0 = 90000000 ∧
    streakBestOf modelTz
      [{ username := "u", lockId := PRIMARY_LOCK, entryTime := 0,
         lockMac := "", recordType := 0, electricQuantity := none },
       { username := "u", lockId := PRIMARY_LOCK, entryTime := 86400000,
         lockMac := "", recordType := 0, electricQuantity := none }] "u" = 1 := by
  decide

/-- Claim C2 (amended): once a previous day exists, a day extends the
current run exactly when the raw millisecond difference between the two
truncated day instants is exactly 86400000 (the `$divide`/`$subtract`
contiguity test); any other difference, including the 23h/25h differences
of DST-spanning consecutive local days, resets the run to 1. -/
theorem streak_extension_raw_ms (v : StreakState) (l t : Int)
    (h : v.last = some l) :
    (streakStep v t).curr = (if t - l = 86400000 then v.curr + 1 else 1) ∧
    (streakStep v t).last = some t ∧
    (streakStep v t).best = max v.best (streakStep v t).curr := by
  obtain ⟨vl, vc, vb⟩ := v
  obtain rfl : vl = some l := h
  unfold streakStep
  dsimp only
  refine ⟨rfl, rfl, ?_⟩
  split <;> omega

/-- Witness for the amended C2 at a concrete state: after a one-day run
ending at instant 0, the day instant 86400000 extends the run to 2. -/
theorem streak_extension_raw_ms_witness :
    (streakStep { last := some 0, curr := 1, best := 1 } 86400000).curr =
      (if (86400000 : Int) - 0 = 86400000 then 1 + 1 else 1) :=
  (streak_extension_raw_ms { last := some 0, curr := 1, best := 1 } 0
    86400000 rfl).1

/-! Section: Leaderboard ranking

Every leaderboard facet ends with `$sort { count: -1, _id: 1 }` followed by
`$limit 5`: descending by count, ascending by identifier for ties.  After a
`$group`, the `_id` keys are pairwise distinct, so this comparator is a
total order on the grouped rows and the sorted output is unique. -/

/-- The `$sort { count: -1, _id: 1 }` comparator on `(id, count)` rows. -/
def lbRel (a b : String × Int) : Prop :=
  b.2 < a.2 ∨ (a.2 = b.2 ∧ a.1 ≤ b.1)

instance : DecidableRel lbRel := fun a b => by
  unfold lbRel; infer_instance

/-- `$sort { count: -1, _id: 1 }` on grouped `(id, count)` rows. -/
def sortLB (l : List (String × Int)) : List (String × Int) :=
  List.insertionSort lbRel l

/-- A whole leaderboard facet tail: `$sort { count: -1, _id: 1 }` then
`$limit limit` (the route always passes 5). -/
def leaderboardTop (counts : List (String × Int)) (limit : Nat := 5) :
    List (String × Int) :=
  (sortLB counts).take limit

instance : IsTrans (String × Int) lbRel := by
  refine ⟨fun a b c hab hbc => ?_⟩
  rcases hab with h1 | ⟨h1, h2⟩ <;> rcases hbc with h3 | ⟨h3, h4⟩
  · exact Or.inl (lt_trans h3 h1)
  · exact Or.inl (by omega)
  · exact Or.inl (by omega)
  · exact Or.inr ⟨by omega, le_trans h2 h4⟩

instance : IsTotal (String × Int) lbRel := by
  refine ⟨fun a b => ?_⟩
  rcases lt_trichotomy a.2 b.2 with h | h | h
  · exact Or.inr (Or.inl h)
  · rcases le_total a.1 b.1 with h' | h'
    · exact Or.inl (Or.inr ⟨h, h'⟩)
    · exact Or.inr (Or.inr ⟨h.symm, h'⟩)
  · exact Or.inl (Or.inl h)

lemma sortLB_sorted (l : List (String × Int)) :
    List.Pairwise lbRel (sortLB l) :=
  List.sorted_insertionSort lbRel l

lemma sortLB_perm (l : List (String × Int)) : (sortLB l).Perm l :=
  List.perm_insertionSort lbRel l

/-- Claim C6: for every entity-to-count mapping, the leaderboard facet tail
outputs a sequence sorted descending by count with ties broken by ascending
identifier, and the output length never exceeds the requested limit. -/
theorem leaderboard_order_and_limit (counts : List (String × Int))
    (limit : Nat) :
    (leaderboardTop counts limit).length ≤ limit ∧
    List.Pairwise lbRel (leaderboardTop counts limit) := by
  constructor
  · calc (leaderboardTop counts limit).length
        = min limit (sortLB counts).length := List.length_take limit _
      _ ≤ limit := min_le_left _ _
  · exact (sortLB_sorted counts).sublist (List.take_sublist limit _)

/-! Section: Date parameter parsing

`GET /api` parses the `date` query parameter with the regexes
`/^(\d{4})-(\d{2})-(\d{2})$/` and `/^(\d{4})-(\d{2})$/`; on a match it
builds a local `new Date(y, mo-1, d)`, otherwise it falls back to
`new Date(dateParam)`, and only when the parameter is absent (or empty,
since `if (dateParam)` treats `''` as falsy) does it use `new Date()`.
The JavaScript `Date` primitives are modelled by an abstract `JsDateEnv`;
`newDateStr` returning `none` models an Invalid Date. -/

/-- Numeric value of two digit characters. -/
def digit2 (a b : Char) : Nat := 10 * (a.toNat - 48) + (b.toNat - 48)

/-- Numeric value of four digit characters. -/
def digit4 (a b c d : Char) : Nat :=
  1000 * (a.toNat - 48) + 100 * (b.toNat - 48) + 10 * (c.toNat - 48) +
    (d.toNat - 48)

/-- `/^(\d{4})-(\d{2})-(\d{2})$/.test s`. -/
def matchesYMD (s : String) : Bool :=
  match s.data with
  | [a, b, c, d, e, f, g, h, i, j] =>
    a.isDigit && b.isDigit && c.isDigit && d.isDigit && e == '-' &&
      f.isDigit && g.isDigit && h == '-' && i.isDigit && j.isDigit
  | _ => false

/-- `/^(\d{4})-(\d{2})$/.test s`. -/
def matchesYM (s : String) : Bool :=
  match s.data with
  | [a, b, c, d, e, f, g] =>
    a.isDigit && b.isDigit && c.isDigit && d.isDigit && e == '-' &&
      f.isDigit && g.isDigit
  | _ => false

/-- Captured `Number(m3[1])`, `Number(m3[2])`, `Number(m3[3])`. -/
def ymdParts (s : String) : Int × Int × Int :=
  match s.data with
  | [a, b, c, d, _, f, g, _, i, j] =>
    ((digit4 a b c d : Int), (digit2 f g : Int), (digit2 i j : Int))
  | _ => (0, 0, 0)

/-- Captured `Number(m2[1])`, `Number(m2[2])`. -/
def ymParts (s : String) : Int × Int :=
  match s.data with
  | [a, b, c, d, _, f, g] => ((digit4 a b c d : Int), (digit2 f g : Int))
  | _ => (0, 0)

/-- Abstract JavaScript date primitives: `newDateYMD` is
`new Date(y, monthIndex, day)` in server local time, `newDateStr s` is
`new Date(s)` with `none` for an Invalid Date, `now` is `new Date()`. -/
structure JsDateEnv where
  newDateYMD : Int → Int → Int → Int
  newDateStr : String → Option Int
  now : Int

/-- The `date` resolution of `GET /api` (`let date; if (dateParam) ...`). -/
def computeDate (env : JsDateEnv) (dateParam : Option String) : Option Int :=
  match dateParam with
  | none => some env.now
  | some s =>
    if s = "" then some env.now
    else if matchesYMD s then
      some (env.newDateYMD (ymdParts s).1 ((ymdParts s).2.1 - 1)
        (ymdParts s).2.2)
    else if matchesYM s then
      some (env.newDateYMD (ymParts s).1 ((ymParts s).2 - 1) 1)
    else env.newDateStr s

/-- Claim C4 counterexample: in an environment where `new Date("garbage")`
is an Invalid Date, the resolved date is that Invalid Date (`none`), not
"now": there is no fallback to the current time for values unparseable as
generic timestamps. -/
theorem date_unparseable_not_now :
    computeDate
      { newDateYMD := fun _ _ _ => 0, newDateStr := fun _ => none,
        now := 12345 } (some "garbage") = none ∧
    computeDate
      { newDateYMD := fun _ _ _ => 0, newDateStr := fun _ => none,
        now := 12345 } (some "garbage") ≠ some 12345 := by
  decide

/-- Claim C4 (amended): a non-empty date parameter matching neither
`YYYY-MM-DD` nor `YYYY-MM` resolves to exactly the generic-timestamp parse
`new Date(dateParam)`; when even that is unparseable the result is the
Invalid Date itself (never "now"), and the invalid value flows on into the
time window.  Only an absent or empty parameter defaults to "now". -/
theorem date_generic_fallback (env : JsDateEnv) (s : String) (hne : s ≠ "")
    (h3 : matchesYMD s = false) (h2 : matchesYM s = false) :
    computeDate env (some s) = env.newDateStr s := by
  unfold computeDate
  simp [hne, h3, h2]

/-- Witness for the amended C4 at the unparseable string `"garbage"`. -/
theorem date_generic_fallback_witness :
    computeDate
      { newDateYMD := fun _ _ _ => 0, newDateStr := fun _ => none,
        now := 12345 } (some "garbage") =
    JsDateEnv.newDateStr
      { newDateYMD := fun _ _ _ => 0, newDateStr := fun _ => none,
        now := 12345 } "garbage" :=
  date_generic_fallback
    { newDateYMD := fun _ _ _ => 0, newDateStr := fun _ => none,
      now := 12345 } "garbage" (by decide) (by decide) (by decide)

/-! Section: Month/season leaderboards (`leaderboardAgg`, `period === 'month'`) -/

/-- Distinct usernames of an event list, in first-occurrence order (the
user set produced by a `$group` on `$username`). -/
def usersOf (es : List Entry) : List String :=
  (es.map (fun e => e.username)).dedup

/-- The minimum of a list of instants; models `$sort { entryTime: 1, _id: 1 }`
followed by `$first` on a non-empty group (rows tied on `entryTime` carry
the same value, so the `_id` tie-break does not affect it). -/
def minTimeOf : List Int → Int
  | [] => 0
  | t :: ts => ts.foldl min t

/-- Distinct `(username, day)` pairs of an event list: the
`$group { _id: { u: '$username', d: '$day' } }` stage over
`day: $dateToString '%Y-%m-%d'`. -/
def dayPairs (tz : TzEnv) (l : List Entry) : List (String × String) :=
  (l.map (fun e => (e.username, tz.dayStr e.entryTime))).dedup

/-- First entry time of a `(username, day)` group
(`firstTime: { $first: '$entryTime' }` after an ascending sort). -/
def groupFirstTime (tz : TzEnv) (l : List Entry) (u d : String) : Int :=
  minTimeOf ((l.filter
    (fun e => e.username == u && tz.dayStr e.entryTime == d)).map
    (fun e => e.entryTime))

/-- The user-day pairs surviving `$match { hour: { $lt: 8 } }` on the hour
of the group's first entry (`topEarlyBirds`). -/
def earlyPairs (tz : TzEnv) (l : List Entry) : List (String × String) :=
  (dayPairs tz l).filter (fun p => tz.hourOf (groupFirstTime tz l p.1 p.2) < 8)

/-- `$group { _id: '$_id.u', count: { $sum: 1 } }` over user-day pairs:
per-user day counts, one row per user occurring in the pairs. -/
def countsByUser (pairs : List (String × String)) : List (String × Int) :=
  ((pairs.map (fun p => p.1)).dedup).map
    (fun u => (u, (pairs.countP (fun p => p.1 == u) : Int)))

/-- The four month/season leaderboard categories of `leaderboardAgg`. -/
structure MonthLeaderboards where
  topUsers : List (String × Int)
  topEarlyBirds : List (String × Int)
  topNightOwls : List (String × Int)
  topLongestStreaks : List (String × Int)
deriving DecidableEq, Repr

/-- The month/season branch of `leaderboardAgg`: the facet input is
`$match { entryTime: window, ...(lockId ? { lockId } : {}) }` and every
category facet then applies its own `$match { lockId: PRIMARY_LOCK }`. -/
def monthLeaderboards (tz : TzEnv) (es : List Entry) (rangeStart rangeEnd : Int)
    (lockId : String) : MonthLeaderboards :=
  let pl := primaryOnly (lbBase es rangeStart rangeEnd lockId)
  { topUsers := leaderboardTop (countsByUser (dayPairs tz pl))
    topEarlyBirds := leaderboardTop (countsByUser (earlyPairs tz pl))
    topNightOwls := leaderboardTop (countsByUser
      (dayPairs tz (pl.filter (fun e => 22 ≤ tz.hourOf e.entryTime))))
    topLongestStreaks := leaderboardTop
      ((usersOf pl).map (fun u => (u, streakBestOf tz pl u))) }

/-- Claim C1 counterexample: two requests identical except for the caller's
`lockId` filter (no filter vs. filter `"77"`) over the same single
primary-lock event produce different month `topUsers` leaderboards: the
caller's lock filter is applied conjunctively before the primary-lock
match, so filtering to a non-primary lock empties the category instead of
leaving it unchanged. -/
theorem month_leaderboards_lock_filter_dependent :
    (monthLeaderboards modelTz
      [{ username := "alice", lockId := PRIMARY_LOCK, entryTime := 10000000,
         lockMac := "", recordType := 0, electricQuantity := none }]
      0 20000000 "").topUsers = [("alice", 1)] ∧
    (monthLeaderboards modelTz
      [{ username := "alice", lockId := PRIMARY_LOCK, entryTime := 10000000,
         lockMac := "", recordType := 0, electricQuantity := none }]
      0 20000000 "77").topUsers = [] := by
  decide

lemma primary_lbBase_noFilter_eq (es : List Entry) (rangeStart rangeEnd : Int) :
    primaryOnly (lbBase es rangeStart rangeEnd "") =
      primaryOnly (lbBase es rangeStart rangeEnd PRIMARY_LOCK) := by
  unfold primaryOnly lbBase
  rw [List.filter_filter, List.filter_filter]
  apply List.filter_congr
  intro e _
  have hne : (PRIMARY_LOCK == "") = false := rfl
  by_cases h : e.lockId = PRIMARY_LOCK
  · simp [h, hne]
  · have hb : (e.lockId == PRIMARY_LOCK) = false := by simp [h]
    simp [hb]

/-- Claim C1 (amended): each month/season leaderboard category is computed
over entries matching both the caller's lock filter and the primary-lock
restriction.  Consequently two requests differing only in the lock filter
agree exactly when each filter is absent or equal to the primary lock;
a filter for any other lock yields empty categories instead. -/
theorem month_leaderboards_lock_scope (tz : TzEnv) (es : List Entry)
    (rangeStart rangeEnd : Int) (f₁ f₂ : String)
    (h₁ : f₁ = "" ∨ f₁ = PRIMARY_LOCK) (h₂ : f₂ = "" ∨ f₂ = PRIMARY_LOCK) :
    monthLeaderboards tz es rangeStart rangeEnd f₁ =
      monthLeaderboards tz es rangeStart rangeEnd f₂ ∧
    ∀ g : String, g ≠ "" → g ≠ PRIMARY_LOCK →
      monthLeaderboards tz es rangeStart rangeEnd g =
        { topUsers := [], topEarlyBirds := [], topNightOwls := [],
          topLongestStreaks := [] } := by
  constructor
  · have e₁ : primaryOnly (lbBase es rangeStart rangeEnd f₁) =
        primaryOnly (lbBase es rangeStart rangeEnd PRIMARY_LOCK) := by
      rcases h₁ with rfl | rfl
      · exact primary_lbBase_noFilter_eq es rangeStart rangeEnd
      · rfl
    have e₂ : primaryOnly (lbBase es rangeStart rangeEnd f₂) =
        primaryOnly (lbBase es rangeStart rangeEnd PRIMARY_LOCK) := by
      rcases h₂ with rfl | rfl
      · exact primary_lbBase_noFilter_eq es rangeStart rangeEnd
      · rfl
    simp only [monthLeaderboards, e₁, e₂]
  · intro g hg hgP
    have hpl : primaryOnly (lbBase es rangeStart rangeEnd g) = [] := by
      unfold primaryOnly lbBase
      rw [List.filter_filter]
      rw [List.filter_eq_nil_iff]
      intro e _
      by_cases h : e.lockId = PRIMARY_LOCK
      · have hgb : (PRIMARY_LOCK == g) = false := by
          rw [beq_eq_false_iff_ne]
          exact fun heq => hgP heq.symm
        simp [h, hg, hgb]
      · have hb : (e.lockId == PRIMARY_LOCK) = false := by simp [h]
        simp [hb]
    simp only [monthLeaderboards, hpl]
    rfl

/-- Witness for the amended C1 at a concrete event set, with the lock
filters absent and equal to the primary lock respectively. -/
theorem month_leaderboards_lock_scope_witness :
    (monthLeaderboards modelTz
      [{ username := "alice", lockId := PRIMARY_LOCK, entryTime := 10000000,
         lockMac := "", recordType := 0, electricQuantity := none }]
      0 20000000 "" =
    monthLeaderboards modelTz
      [{ username := "alice", lockId := PRIMARY_LOCK, entryTime := 10000000,
         lockMac := "", recordType := 0, electricQuantity := none }]
      0 20000000 PRIMARY_LOCK) ∧
    ∀ g : String, g ≠ "" → g ≠ PRIMARY_LOCK →
      monthLeaderboards modelTz
        [{ username := "alice", lockId := PRIMARY_LOCK, entryTime := 10000000,
           lockMac := "", recordType := 0, electricQuantity := none }]
        0 20000000 g =
        { topUsers := [], topEarlyBirds := [], topNightOwls := [],
          topLongestStreaks := [] } :=
  month_leaderboards_lock_scope modelTz
    [{ username := "alice", lockId := PRIMARY_LOCK, entryTime := 10000000,
       lockMac := "", recordType := 0, electricQuantity := none }]
    0 20000000 "" PRIMARY_LOCK (Or.inl rfl) (Or.inr rfl)

/-! Section: Most active user (`aggPipelines.mostActiveUser` and
`lib/utils.js computeAchievements`)

The route's range summary takes `mostActiveUser` from an aggregation facet
ending in `$sort { count: -1, _id: 1 }` + `$limit 1`; the client-side
helper `computeAchievements` instead scans a JavaScript `Map` in insertion
order keeping the first strict maximum. -/

/-- The `$sort { count: -1, _id: 1 }`, `$limit 1`,
`facet.mostActiveUser?.[0]` tail of the `mostActiveUser` facet, applied to
the grouped per-user counts (distinct-day counts for month/season, raw
entry counts for day). -/
def mostActiveUserFacet (counts : List (String × Int)) :
    Option (String × Int) :=
  (leaderboardTop counts 1).head?

/-- An element of the `entries` array taken by
`lib/utils.js computeAchievements`; `""` models a missing/falsy field, as
in `e.userId || e.username || 'unknown'`. -/
structure UtilEntry where
  userId : String
  username : String
  lockId : String
  entryTime : Option Int
deriving DecidableEq, Repr

/-- `e.userId || e.username || 'unknown'` with JavaScript string
truthiness. -/
def utilUserOf (e : UtilEntry) : String :=
  if e.userId ≠ "" then e.userId
  else if e.username ≠ "" then e.username
  else "unknown"

/-- `userCounts.set(user, (userCounts.get(user) || 0) + 1)` on a JavaScript
`Map`: updating an existing key keeps its position, a new key is appended
(insertion order). -/
def bumpCount (m : List (String × Nat)) (k : String) : List (String × Nat) :=
  if m.any (fun p => p.1 == k) then
    m.map (fun p => if p.1 == k then (p.1, p.2 + 1) else p)
  else m ++ [(k, 1)]

/-- The `userCounts` map after the entry loop of `computeAchievements`. -/
def userCountsOf (entries : List UtilEntry) : List (String × Nat) :=
  entries.foldl (fun m e => bumpCount m (utilUserOf e)) []

/-- The `let maxU = null, maxC = -1; for (const [u, c] of userCounts) if
(c > maxC) { maxC = c; maxU = u }` loop.  All stored counts are at least 1,
so the first element always replaces the initial `null`/`-1` accumulator,
which the `none` case mirrors. -/
def firstMaxLoop (m : List (String × Nat)) : Option (String × Nat) :=
  m.foldl (fun acc p =>
    match acc with
    | none => some p
    | some q => if p.2 > q.2 then some p else some q) none

/-- The `mostActiveUser` field computed by `computeAchievements`: `null`
on empty input, otherwise the first maximum of the user-count map. -/
def computeAchievementsMostActiveUser (entries : List UtilEntry) :
    Option (String × Nat) :=
  if entries.isEmpty then none else firstMaxLoop (userCountsOf entries)

/-- Claim C5 counterexample: on four entries where `zed` and `abe` tie with
count 2 and `zed` is inserted first, `computeAchievements` returns `zed`,
although `abe` also attains the maximal count and is lexicographically
smaller — the helper breaks ties by insertion order, not lexicographically. -/
theorem most_active_user_not_lex :
    computeAchievementsMostActiveUser
      [{ userId := "", username := "zed", lockId := "", entryTime := none },
       { userId := "", username := "zed", lockId := "", entryTime := none },
       { userId := "", username := "abe", lockId := "", entryTime := none },
       { userId := "", username := "abe", lockId := "", entryTime := none }]
      = some ("zed", 2) ∧
    ("abe", 2) ∈ userCountsOf
      [{ userId := "", username := "zed", lockId := "", entryTime := none },
       { userId := "", username := "zed", lockId := "", entryTime := none },
       { userId := "", username := "abe", lockId := "", entryTime := none },
       { userId := "", username := "abe", lockId := "", entryTime := none }] ∧
    ("abe" : String) < "zed" := by
  refine ⟨by decide, by decide, ?_⟩
  rw [String.lt_iff_toList_lt]
  decide

lemma firstMaxLoop_foldl_spec (m : List (String × Nat)) :
    ∀ q : String × Nat,
      ∃ u c pre post,
        m.foldl (fun acc p =>
          match acc with
          | none => some p
          | some r => if p.2 > r.2 then some p else some r) (some q) =
            some (u, c) ∧
        q :: m = pre ++ (u, c) :: post ∧
        (∀ r ∈ q :: m, r.2 ≤ c) ∧ (∀ r ∈ pre, r.2 < c) := by
  induction m with
  | nil =>
    intro q
    exact ⟨q.1, q.2, [], [], rfl, rfl, by simp, by simp⟩
  | cons p m ih =>
    intro q
    by_cases hpq : p.2 > q.2
    · obtain ⟨u, c, pre, post, hfold, hdec, hub, hstrict⟩ := ih p
      have hpc : p.2 ≤ c := hub p (by simp)
      refine ⟨u, c, q :: pre, post, ?_, ?_, ?_, ?_⟩
      · simpa [hpq] using hfold
      · simpa using hdec
      · intro r hr
        rcases List.mem_cons.mp hr with rfl | hr
        · exact le_of_lt (lt_of_lt_of_le hpq hpc)
        · exact hub r hr
      · intro r hr
        rcases List.mem_cons.mp hr with rfl | hr
        · exact lt_of_lt_of_le hpq hpc
        · exact hstrict r hr
    · obtain ⟨u, c, pre, post, hfold, hdec, hub, hstrict⟩ := ih q
      have hple : p.2 ≤ q.2 := le_of_not_lt hpq
      have hqc : q.2 ≤ c := hub q (by simp)
      cases pre with
      | nil =>
        have h' : q = (u, c) ∧ m = post := by simpa using hdec
        refine ⟨u, c, [], p :: post, ?_, ?_, ?_, by simp⟩
        · simpa [hpq] using hfold
        · simp [h'.1, h'.2]
        · intro r hr
          rcases List.mem_cons.mp hr with rfl | hr
          · exact hqc
          · rcases List.mem_cons.mp hr with rfl | hr
            · exact le_trans hple hqc
            · exact hub r (by simp [hr])
      | cons q₀ pre₂ =>
        have hsplit : q = q₀ ∧ m = pre₂ ++ (u, c) :: post := by
          have h := hdec
          simp only [List.cons_append, List.cons.injEq] at h
          exact h
        have hq₀lt : q.2 < c := by
          have := hstrict q₀ (by simp)
          rw [hsplit.1]
          exact this
        refine ⟨u, c, q :: p :: pre₂, post, ?_, ?_, ?_, ?_⟩
        · simpa [hpq] using hfold
        · simp [hsplit.2]
        · intro r hr
          rcases List.mem_cons.mp hr with rfl | hr
          · exact hqc
          · rcases List.mem_cons.mp hr with rfl | hr
            · exact le_trans hple hqc
            · exact hub r (by simp [hr])
        · intro r hr
          rcases List.mem_cons.mp hr with rfl | hr
          · exact hq₀lt
          · rcases List.mem_cons.mp hr with rfl | hr
            · exact lt_of_le_of_lt hple hq₀lt
            · exact hstrict r (by simp [hr])

lemma userCountsOf_ne_nil (entries : List UtilEntry) (hne : entries ≠ []) :
    userCountsOf entries ≠ [] := by
  have hbump : ∀ (m : List (String × Nat)) (k : String), bumpCount m k ≠ [] := by
    intro m k
    unfold bumpCount
    split
    · cases m with
      | nil => simp_all [List.any_nil]
      | cons p m => simp
    · simp
  have hfold : ∀ (es : List UtilEntry) (m : List (String × Nat)), m ≠ [] →
      es.foldl (fun m e => bumpCount m (utilUserOf e)) m ≠ [] := by
    intro es
    induction es with
    | nil => intro m hm; simpa using hm
    | cons e es ih =>
      intro m _
      exact ih (bumpCount m (utilUserOf e)) (hbump m (utilUserOf e))
  cases entries with
  | nil => exact absurd rfl hne
  | cons e es =>
    unfold userCountsOf
    simp only [List.foldl_cons]
    exact hfold es (bumpCount [] (utilUserOf e)) (hbump [] (utilUserOf e))

/-- Claim C5 (amended): the aggregation facet behind the range summary's
`mostActiveUser` does return a user with maximal count whose identifier is
lexicographically least among users attaining that count; the client-side
`computeAchievements` helper instead returns a maximal-count user that is
the earliest, in map insertion order (first occurrence in the entries
list), among the users attaining the maximum — not necessarily the
lexicographically least. -/
theorem most_active_user_tiebreak (counts : List (String × Int))
    (p : String × Int) (hfacet : mostActiveUserFacet counts = some p)
    (entries : List UtilEntry) (hne : entries ≠ []) :
    (p ∈ counts ∧ (∀ q ∈ counts, q.2 ≤ p.2) ∧
      (∀ q ∈ counts, q.2 = p.2 → p.1 ≤ q.1)) ∧
    (∃ u c pre post,
      computeAchievementsMostActiveUser entries = some (u, c) ∧
      userCountsOf entries = pre ++ (u, c) :: post ∧
      (∀ q ∈ userCountsOf entries, q.2 ≤ c) ∧
      (∀ q ∈ pre, q.2 < c)) := by
  constructor
  · obtain ⟨rest, hs⟩ : ∃ rest, sortLB counts = p :: rest := by
      unfold mostActiveUserFacet leaderboardTop at hfacet
      cases h : sortLB counts with
      | nil => rw [h] at hfacet; simp at hfacet
      | cons a l =>
        rw [h] at hfacet
        simp only [List.take_succ_cons, List.take_zero, List.head?_cons,
          Option.some.injEq] at hfacet
        exact ⟨l, by rw [hfacet]⟩
    have hperm := sortLB_perm counts
    rw [hs] at hperm
    have hmem : ∀ q ∈ counts, q = p ∨ q ∈ rest := by
      intro q hq
      have : q ∈ p :: rest := hperm.mem_iff.mpr hq
      simpa using this
    have hsorted := sortLB_sorted counts
    rw [hs] at hsorted
    have hrel : ∀ q ∈ rest, lbRel p q := (List.pairwise_cons.mp hsorted).1
    refine ⟨hperm.mem_iff.mp (by simp), ?_, ?_⟩
    · intro q hq
      rcases hmem q hq with rfl | hq'
      · exact le_refl _
      · rcases hrel q hq' with h | ⟨h, _⟩
        · exact le_of_lt h
        · exact le_of_eq h.symm
    · intro q hq hqp
      rcases hmem q hq with rfl | hq'
      · exact le_refl _
      · rcases hrel q hq' with h | ⟨_, h⟩
        · omega
        · exact h
  · have hcounts := userCountsOf_ne_nil entries hne
    cases hm : userCountsOf entries with
    | nil => exact absurd hm hcounts
    | cons q m =>
      obtain ⟨u, c, pre, post, hfold, hdec, hub, hstrict⟩ :=
        firstMaxLoop_foldl_spec m q
      refine ⟨u, c, pre, post, ?_, ?_, ?_, hstrict⟩
      · unfold computeAchievementsMostActiveUser
        have : entries.isEmpty = false := by
          cases entries with
          | nil => exact absurd rfl hne
          | cons _ _ => rfl
        rw [this]
        simp only [Bool.false_eq_true, if_false]
        rw [hm]
        unfold firstMaxLoop
        simpa using hfold
      · exact hdec
      · exact hub

/-- Witness for the amended C5: the facet part at counts
`[("b", 2), ("a", 1)]` (head `("b", 2)`), the helper part at one concrete
entry list. -/
theorem most_active_user_tiebreak_witness :
    ((("b", (2 : Int)) ∈ [("b", (2 : Int)), ("a", (1 : Int))] ∧
      (∀ q ∈ [("b", (2 : Int)), ("a", (1 : Int))], q.2 ≤ 2) ∧
      (∀ q ∈ [("b", (2 : Int)), ("a", (1 : Int))], q.2 = 2 → "b" ≤ q.1)) ∧
    (∃ u c pre post,
      computeAchievementsMostActiveUser
        [{ userId := "", username := "zed", lockId := "",
           entryTime := none }] = some (u, c) ∧
      userCountsOf
        [{ userId := "", username := "zed", lockId := "",
           entryTime := none }] = pre ++ (u, c) :: post ∧
      (∀ q ∈ userCountsOf
        [{ userId := "", username := "zed", lockId := "",
           entryTime := none }], q.2 ≤ c) ∧
      (∀ q ∈ pre, q.2 < c))) :=
  most_active_user_tiebreak [("b", 2), ("a", 1)] ("b", 2) (by decide)
    [{ userId := "", username := "zed", lockId := "", entryTime := none }]
    (by decide)

/-! Section: Retention and streak distributions (`analyticsAgg` facets
`retention` and `streaks`, plus the zero-fill merges)

Both facets run over the analytics event set and group distinct
`(username, $dateTrunc day)` pairs per user; `retention` buckets the day
count into `'1'..'19'` and `'20+'`, `streaks` buckets the longest streak
into `{'1','2-3','4-7','8-15','16+'}`.  The route then merges the raw
bucket counts over a zero-filled default object, so the final mapping has
exactly the bucket keys, with 0 for empty buckets — which the
`countP`-based definitions below produce directly. -/

/-- Distinct active days of a user within the analyzed set (the
`$group {_id: {u, d}}` then `$group {_id: u, days: {$sum: 1}}` chain of
the `retention` facet). -/
def retentionDays (tz : TzEnv) (es : List Entry) (u : String) : Nat :=
  (((es.filter (fun e => e.username == u)).map
    (fun e => tz.dayTrunc e.entryTime)).dedup).length

/-- The retention bucket expression
`$cond [{$gt: ['$days', 19]}, '20+', {$toString: '$days'}]`. -/
def retBucket (n : Nat) : String :=
  if n > 19 then "20+" else toString n

/-- The zero-filled retention bucket keys (`retentionDefault`): `'1'..'19'`
then `'20+'`. -/
def retLabels : List String :=
  ((List.range 19).map (fun i => toString (i + 1))) ++ ["20+"]

/-- The final `retentionBuckets` object as a key-ordered association list:
for each bucket key, the number of users of the analyzed set whose
distinct-day count falls in that bucket (0 when none, as the zero-fill
merge produces). -/
def retentionBuckets (tz : TzEnv) (es : List Entry) : List (String × Nat) :=
  retLabels.map (fun b =>
    (b, (usersOf es).countP (fun u => retBucket (retentionDays tz es u) == b)))

/-- The streak-bucket `$switch` of the `streaks` facet. -/
def streakBucket (l : Int) : String :=
  if l = 1 then "1"
  else if 2 ≤ l ∧ l ≤ 3 then "2-3"
  else if 4 ≤ l ∧ l ≤ 7 then "4-7"
  else if 8 ≤ l ∧ l ≤ 15 then "8-15"
  else "16+"

/-- The zero-filled streak bucket keys. -/
def streakLabels : List String := ["1", "2-3", "4-7", "8-15", "16+"]

/-- The final `streakBuckets` object as a key-ordered association list. -/
def streakBuckets (tz : TzEnv) (es : List Entry) : List (String × Nat) :=
  streakLabels.map (fun b =>
    (b, (usersOf es).countP (fun u => streakBucket (streakBestOf tz es u) == b)))

lemma sum_map_add_nat {β : Type} (l : List β) (g h : β → Nat) :
    (l.map (fun b => g b + h b)).sum = (l.map g).sum + (l.map h).sum := by
  induction l with
  | nil => rfl
  | cons b l ih => simp [ih]; omega

lemma sum_map_indicator_zero (x : String) (bs : List String) (hx : x ∉ bs) :
    (bs.map (fun b => if x == b then 1 else 0)).sum = 0 := by
  induction bs with
  | nil => rfl
  | cons b bs ih =>
    have hxb : (x == b) = false := by
      simp only [beq_eq_false_iff_ne]
      intro h
      exact hx (h ▸ List.mem_cons_self b bs)
    simp only [List.map_cons, List.sum_cons, hxb, Bool.false_eq_true,
      if_false, Nat.zero_add]
    exact ih (fun h => hx (List.mem_cons_of_mem b h))

lemma sum_map_indicator_one (x : String) (bs : List String)
    (hnd : bs.Nodup) (hx : x ∈ bs) :
    (bs.map (fun b => if x == b then 1 else 0)).sum = 1 := by
  induction bs with
  | nil => cases hx
  | cons b bs ih =>
    rcases List.mem_cons.mp hx with rfl | hx'
    · simp only [List.map_cons, List.sum_cons, beq_self_eq_true, if_true]
      have : x ∉ bs := (List.nodup_cons.mp hnd).1
      rw [sum_map_indicator_zero x bs this]
    · have hxb : (x == b) = false := by
        simp only [beq_eq_false_iff_ne]
        intro h
        exact (List.nodup_cons.mp hnd).1 (h ▸ hx')
      simp only [List.map_cons, List.sum_cons, hxb, Bool.false_eq_true,
        if_false, Nat.zero_add]
      exact ih (List.nodup_cons.mp hnd).2 hx'

lemma sum_countP_buckets {α : Type} (f : α → String) (bs : List String)
    (hnd : bs.Nodup) :
    ∀ us : List α, (∀ u ∈ us, f u ∈ bs) →
      (bs.map (fun b => us.countP (fun u => f u == b))).sum = us.length := by
  intro us
  induction us with
  | nil =>
    intro _
    simp [List.countP_nil]
  | cons u us ih =>
    intro hmem
    have hmap : bs.map (fun b => (u :: us).countP (fun v => f v == b)) =
        bs.map (fun b =>
          us.countP (fun v => f v == b) + (if f u == b then 1 else 0)) := by
      apply List.map_congr_left
      intro b _
      rw [List.countP_cons]
    rw [hmap, sum_map_add_nat,
      ih (fun v hv => hmem v (List.mem_cons_of_mem u hv)),
      sum_map_indicator_one (f u) bs hnd (hmem u (List.mem_cons_self u us))]
    simp

lemma mem_usersOf_iff (es : List Entry) (u : String) :
    u ∈ usersOf es ↔ ∃ e ∈ es, e.username = u := by
  simp [usersOf, List.mem_dedup, List.mem_map]

lemma retentionDays_pos (tz : TzEnv) (es : List Entry) (u : String)
    (hu : u ∈ usersOf es) : 1 ≤ retentionDays tz es u := by
  obtain ⟨e, he, hname⟩ := (mem_usersOf_iff es u).mp hu
  have hfe : e ∈ es.filter (fun e => e.username == u) :=
    List.mem_filter.mpr ⟨he, by simp [hname]⟩
  have hd : tz.dayTrunc e.entryTime ∈
      ((es.filter (fun e => e.username == u)).map
        (fun e => tz.dayTrunc e.entryTime)).dedup := by
    rw [List.mem_dedup]
    exact List.mem_map_of_mem _ hfe
  have := List.ne_nil_of_mem hd
  unfold retentionDays
  exact List.length_pos.mpr this

lemma retBucket_mem (n : Nat) (hn : 1 ≤ n) : retBucket n ∈ retLabels := by
  unfold retBucket retLabels
  by_cases h : n > 19
  · simp [h]
  · simp only [h, if_false]
    apply List.mem_append_left
    exact List.mem_map.mpr
      ⟨n - 1, List.mem_range.mpr (by omega), by rw [Nat.sub_add_cancel hn]⟩

lemma streakBucket_mem (l : Int) : streakBucket l ∈ streakLabels := by
  unfold streakBucket streakLabels
  split
  · simp
  · split
    · simp
    · split
      · simp
      · split <;> simp

/-- Claim C7: the retention distribution is the complete zero-filled
mapping over buckets `'1'..'19','20+'` and the streak distribution over
`{'1','2-3','4-7','8-15','16+'}`; each user with at least one qualifying
event in the analyzed set falls into exactly one bucket, so both bucket
counts sum to the number of distinct users with qualifying activity. -/
theorem bucket_sums_distinct_users (tz : TzEnv) (es : List Entry) :
    ((retentionBuckets tz es).map (fun p => p.2)).sum = (usersOf es).length ∧
    ((streakBuckets tz es).map (fun p => p.2)).sum = (usersOf es).length ∧
    (retentionBuckets tz es).map (fun p => p.1) = retLabels ∧
    (streakBuckets tz es).map (fun p => p.1) = streakLabels := by
  have hretnd : retLabels.Nodup := by decide
  have hstrnd : streakLabels.Nodup := by decide
  refine ⟨?_, ?_, ?_, ?_⟩
  · unfold retentionBuckets
    rw [List.map_map]
    exact sum_countP_buckets (fun u => retBucket (retentionDays tz es u))
      retLabels hretnd (usersOf es)
      (fun u hu => retBucket_mem _ (retentionDays_pos tz es u hu))
  · unfold streakBuckets
    rw [List.map_map]
    exact sum_countP_buckets (fun u => streakBucket (streakBestOf tz es u))
      streakLabels hstrnd (usersOf es)
      (fun u _ => streakBucket_mem _)
  · unfold retentionBuckets
    simp [List.map_map, Function.comp_def]
  · unfold streakBuckets
    simp [List.map_map, Function.comp_def]

/-! Section: Username filter (`usernameFilter` in `GET /api`)

`userId ? { username: { $regex: `^${userId.replace(/[.*+?^${}()|[\]\\]/g,
'\\$&')}$`, $options: 'i' } } : {}`: the user-supplied string is escaped,
anchored with `^...$` and matched case-insensitively.  The regex engine is
modelled for the fragment such patterns can contain: literal characters,
backslash escapes, the `.` wildcard, the `$` end anchor, and a leading `^`
start anchor (an unanchored pattern searches every start position, as
`$regex` does). -/

/-- The character class of `/[.*+?^${}()|[\]\\]/g`. -/
def regexMetaChars : List Char :=
  ['.', '*', '+', '?', '^', '$', '\x7b', '\x7d', '(', ')', '|', '[', ']', '\\']

/-- `replace(/[.*+?^${}()|[\]\\]/g, '\\$&')` on one character. -/
def escapeRegexChar (c : Char) : List Char :=
  if c ∈ regexMetaChars then ['\\', c] else [c]

/-- `userId.replace(/[.*+?^${}()|[\]\\]/g, '\\$&')` over a character list. -/
def escapeRegexList (l : List Char) : List Char :=
  l.foldr (fun c acc => escapeRegexChar c ++ acc) []

/-- Character comparison under the `i` flag (modelled as lower-casing). -/
def chEq (icase : Bool) (c x : Char) : Bool :=
  if icase then c.toLower == x.toLower else c == x

/-- Matching a pattern of literals, backslash escapes, `.` and the `$`
anchor against an input position: `reM icase pat s` holds when `pat`
matches a prefix of `s` (pattern exhaustion succeeds with input left over,
giving substring semantics; `$` only matches at the end of the input). -/
def reM (icase : Bool) : List Char → List Char → Bool
  | [], _ => true
  | c :: ps, s =>
    if c = '$' then s.isEmpty && reM icase ps s
    else if c = '\\' then
      match ps, s with
      | c' :: ps', x :: xs => chEq icase c' x && reM icase ps' xs
      | _, _ => false
    else if c = '.' then
      match s with
      | _ :: xs => reM icase ps xs
      | [] => false
    else
      match s with
      | x :: xs => chEq icase c x && reM icase ps xs
      | [] => false

/-- `$regex` test semantics: a leading `^` anchors the match at the start
of the input; otherwise every start position is searched. -/
def reSearch (icase : Bool) (pat : List Char) (s : List Char) : Bool :=
  match pat with
  | '^' :: ps => reM icase ps s
  | _ => (s.tails).any (fun t => reM icase pat t)

/-- The `usernameFilter` predicate: does the entry's `username` match
`{ $regex: '^' + escaped userId + '$', $options: 'i' }`? -/
def usernameFilterMatches (userId username : String) : Bool :=
  reSearch true ('^' :: (escapeRegexList userId.data ++ ['$'])) username.data

lemma reM_escape_iff (u : List Char) :
    ∀ s : List Char,
      reM true (escapeRegexList u ++ ['$']) s = true ↔
        s.map Char.toLower = u.map Char.toLower := by
  induction u with
  | nil =>
    intro s
    cases s with
    | nil => simp [escapeRegexList, reM]
    | cons x xs => simp [escapeRegexList, reM]
  | cons c u ih =>
    intro s
    by_cases hm : c ∈ regexMetaChars
    · have hesc : escapeRegexList (c :: u) = '\\' :: c :: escapeRegexList u := by
        simp [escapeRegexList, escapeRegexChar, hm]
      rw [hesc]
      cases s with
      | nil => simp [reM]
      | cons x xs =>
        have hstep : reM true ('\\' :: c :: escapeRegexList u ++ ['$'])
            (x :: xs) =
            (chEq true c x && reM true (escapeRegexList u ++ ['$']) xs) := by
          simp [reM]
        rw [hstep]
        simp only [Bool.and_eq_true, chEq, if_true, beq_iff_eq, List.map_cons,
          List.cons.injEq, ih xs]
        constructor
        · rintro ⟨h1, h2⟩
          exact ⟨h1.symm, h2⟩
        · rintro ⟨h1, h2⟩
          exact ⟨h1.symm, h2⟩
    · have hdollar : c ≠ '$' := fun h => hm (by rw [h]; decide)
      have hback : c ≠ '\\' := fun h => hm (by rw [h]; decide)
      have hdot : c ≠ '.' := fun h => hm (by rw [h]; decide)
      have hesc : escapeRegexList (c :: u) = c :: escapeRegexList u := by
        simp [escapeRegexList, escapeRegexChar, hm]
      rw [hesc]
      cases s with
      | nil => simp [reM, hdollar, hback, hdot]
      | cons x xs =>
        obtain ⟨c₁, ps₁, htail⟩ : ∃ c₁ ps₁,
            escapeRegexList u ++ ['$'] = c₁ :: ps₁ := by
          cases h : escapeRegexList u with
          | nil => exact ⟨'$', [], by simp [h]⟩
          | cons a l => exact ⟨a, l ++ ['$'], by simp [h]⟩
        rw [List.cons_append]
        have hstep : reM true (c :: (escapeRegexList u ++ ['$'])) (x :: xs) =
            (chEq true c x && reM true (escapeRegexList u ++ ['$']) xs) := by
          rw [htail]
          simp [reM, hdollar, hback, hdot]
        rw [hstep]
        simp only [Bool.and_eq_true, chEq, if_true, beq_iff_eq, List.map_cons,
          List.cons.injEq, ih xs]
        constructor
        · rintro ⟨h1, h2⟩
          exact ⟨h1.symm, h2⟩
        · rintro ⟨h1, h2⟩
          exact ⟨h1.symm, h2⟩

/-- Claim C8: for every `userId` filter string, including strings
containing pattern metacharacters, the filter matches an entry iff the
entry's username equals the filter string case-insensitively as a whole
string — an anchored exact match, never a substring or
pattern-interpretation match. -/
theorem username_filter_exact_ci (userId username : String) :
    usernameFilterMatches userId username = true ↔
      username.data.map Char.toLower = userId.data.map Char.toLower := by
  unfold usernameFilterMatches reSearch
  exact reM_escape_iff userId.data username.data

/-! Section: Token-bucket rate limiter (`lib/rateLimit.js`)

`rateLimitConsume(key, { capacity, refillPerSec })` keeps per-key buckets
`{ tokens, updatedAt }`; JavaScript numbers are modelled as rationals and
`Date.now()` as the call instant `t` (milliseconds).  The `remaining`
field is `Math.floor(b.tokens)` and `retryAfter` is
`Math.ceil((1 - b.tokens) / refillPerSec)` (for `refillPerSec = 0`
JavaScript yields `Infinity` where rational division yields `0`; the
field is not used by any claim).  The constant `resetSec` response field
is omitted. -/

structure RLConfig where
  capacity : ℚ
  refillPerSec : ℚ

structure RLBucket where
  tokens : ℚ
  updatedAt : ℚ

/-- The lookup-or-create plus refill prefix of `rateLimitConsume`:
a missing bucket starts full at the call time; an existing bucket gains
`elapsedSeconds * refillPerSec` tokens clamped to capacity and its
`updatedAt` becomes the call time. -/
def refillBucket (cfg : RLConfig) (t : ℚ) (b? : Option RLBucket) : RLBucket :=
  match b? with
  | none => { tokens := cfg.capacity, updatedAt := t }
  | some b =>
    { tokens := min cfg.capacity
        (b.tokens + (t - b.updatedAt) / 1000 * cfg.refillPerSec),
      updatedAt := t }

structure RLResult where
  ok : Bool
  remaining : Int
  retryAfter : Int

/-- `rateLimitConsume` at call instant `t`: consume one token when at
least one whole token is available, else deny; the (possibly refilled)
bucket is stored back in both branches. -/
def rateLimitConsume (cfg : RLConfig) (t : ℚ) (b? : Option RLBucket) :
    RLResult × RLBucket :=
  let b := refillBucket cfg t b?
  if 1 ≤ b.tokens then
    ({ ok := true, remaining := ⌊b.tokens - 1⌋, retryAfter := 0 },
      { b with tokens := b.tokens - 1 })
  else
    ({ ok := false, remaining := 0,
       retryAfter := ⌈(1 - b.tokens) / cfg.refillPerSec⌉ }, b)

/-- A sequence of `rateLimitConsume` calls on one key at the given call
instants, starting from no bucket. -/
def rlRun (cfg : RLConfig) (ts : List ℚ) : Option RLBucket :=
  ts.foldl (fun b? t => some (rateLimitConsume cfg t b?).2) none

lemma consume_step_inv (cfg : RLConfig) (t : ℚ) (b? : Option RLBucket)
    (hc : 0 ≤ cfg.capacity) (hr : 0 ≤ cfg.refillPerSec)
    (hb : ∀ b ∈ b?, 0 ≤ b.tokens ∧ b.tokens ≤ cfg.capacity ∧ b.updatedAt ≤ t) :
    0 ≤ (rateLimitConsume cfg t b?).2.tokens ∧
    (rateLimitConsume cfg t b?).2.tokens ≤ cfg.capacity ∧
    (rateLimitConsume cfg t b?).2.updatedAt = t := by
  have href : 0 ≤ (refillBucket cfg t b?).tokens ∧
      (refillBucket cfg t b?).tokens ≤ cfg.capacity ∧
      (refillBucket cfg t b?).updatedAt = t := by
    cases b? with
    | none => exact ⟨hc, le_refl _, rfl⟩
    | some b =>
      obtain ⟨hb0, _, hbt⟩ := hb b rfl
      refine ⟨?_, min_le_left _ _, rfl⟩
      apply le_min hc
      have h1 : (0 : ℚ) ≤ (t - b.updatedAt) / 1000 * cfg.refillPerSec := by
        apply mul_nonneg _ hr
        apply div_nonneg _ (by norm_num)
        linarith
      linarith
  unfold rateLimitConsume
  by_cases h : 1 ≤ (refillBucket cfg t b?).tokens
  · simp only [h, if_true]
    exact ⟨by linarith [href.1], by linarith [href.2.1], href.2.2⟩
  · simp only [h, if_false]
    exact href

lemma rlRun_inv (cfg : RLConfig)
    (hc : 0 ≤ cfg.capacity) (hr : 0 ≤ cfg.refillPerSec) :
    ∀ (ts : List ℚ) (b? : Option RLBucket), ts.Chain' (· ≤ ·) →
      (∀ b ∈ b?, 0 ≤ b.tokens ∧ b.tokens ≤ cfg.capacity ∧
        (∀ t ∈ ts.head?, b.updatedAt ≤ t)) →
      ∀ b : RLBucket,
        ts.foldl (fun b? t => some (rateLimitConsume cfg t b?).2) b? =
          some b →
        0 ≤ b.tokens ∧ b.tokens ≤ cfg.capacity := by
  intro ts
  induction ts with
  | nil =>
    intro b? _ hb b hfold
    simp only [List.foldl_nil] at hfold
    obtain ⟨h1, h2, _⟩ := hb b hfold
    exact ⟨h1, h2⟩
  | cons t ts ih =>
    intro b? hchain hb b hfold
    obtain ⟨hhead, htail⟩ := List.chain'_cons'.mp hchain
    simp only [List.foldl_cons] at hfold
    have hstep := consume_step_inv cfg t b? hc hr
      (fun b hbmem => by
        obtain ⟨h1, h2, h3⟩ := hb b hbmem
        exact ⟨h1, h2, h3 t rfl⟩)
    refine ih (some (rateLimitConsume cfg t b?).2) htail ?_ b hfold
    intro b' hb'
    obtain rfl : (rateLimitConsume cfg t b?).2 = b' := by
      simpa using hb'
    refine ⟨hstep.1, hstep.2.1, ?_⟩
    intro t' ht'
    rw [hstep.2.2]
    exact hhead t' ht'

/-- Claim C9: under a fixed configuration with nonnegative capacity and
refill rate and nondecreasing call times, the stored token count after
every prefix of a call sequence stays within `[0, capacity]`; a call
succeeds iff at least one whole token is available after the refill at
call time; a successful call consumes exactly one token and a denied call
consumes none. -/
theorem rate_limit_token_bucket (cfg : RLConfig) (ts : List ℚ)
    (hc : 0 ≤ cfg.capacity) (hr : 0 ≤ cfg.refillPerSec)
    (hmono : ts.Chain' (· ≤ ·)) :
    (∀ (n : Nat) (b : RLBucket), rlRun cfg (ts.take n) = some b →
      0 ≤ b.tokens ∧ b.tokens ≤ cfg.capacity) ∧
    (∀ (t : ℚ) (b? : Option RLBucket),
      ((rateLimitConsume cfg t b?).1.ok = true ↔
        1 ≤ (refillBucket cfg t b?).tokens) ∧
      ((rateLimitConsume cfg t b?).1.ok = true →
        (rateLimitConsume cfg t b?).2.tokens =
          (refillBucket cfg t b?).tokens - 1) ∧
      ((rateLimitConsume cfg t b?).1.ok = false →
        (rateLimitConsume cfg t b?).2.tokens =
          (refillBucket cfg t b?).tokens)) := by
  constructor
  · intro n b hfold
    exact rlRun_inv cfg hc hr (ts.take n) none (hmono.take n)
      (fun b hb => by cases hb) b hfold
  · intro t b?
    by_cases h : 1 ≤ (refillBucket cfg t b?).tokens
    · refine ⟨?_, ?_, ?_⟩ <;> simp [rateLimitConsume, h]
    · refine ⟨?_, ?_, ?_⟩ <;> simp [rateLimitConsume, h]

/-- Witness for C9 at capacity 2, refill 1 token/s and call instants
`[0, 500]`. -/
theorem rate_limit_token_bucket_witness :
    (∀ (n : Nat) (b : RLBucket),
      rlRun { capacity := 2, refillPerSec := 1 }
          (List.take n ([0, 500] : List ℚ)) = some b →
      0 ≤ b.tokens ∧ b.tokens ≤ 2) ∧
    (∀ (t : ℚ) (b? : Option RLBucket),
      ((rateLimitConsume { capacity := 2, refillPerSec := 1 } t b?).1.ok =
          true ↔
        1 ≤ (refillBucket { capacity := 2, refillPerSec := 1 } t b?).tokens) ∧
      ((rateLimitConsume { capacity := 2, refillPerSec := 1 } t b?).1.ok =
          true →
        (rateLimitConsume { capacity := 2, refillPerSec := 1 } t b?).2.tokens =
          (refillBucket { capacity := 2, refillPerSec := 1 } t b?).tokens - 1) ∧
      ((rateLimitConsume { capacity := 2, refillPerSec := 1 } t b?).1.ok =
          false →
        (rateLimitConsume { capacity := 2, refillPerSec := 1 } t b?).2.tokens =
          (refillBucket { capacity := 2, refillPerSec := 1 } t b?).tokens)) :=
  rate_limit_token_bucket { capacity := 2, refillPerSec := 1 } [0, 500]
    (by norm_num) (by norm_num) (by norm_num [List.chain'_cons])

/-! Section: Cohorts (`cohortAgg` and `cohortByMonth`)

`firstMonthPerUser` matches `lockId: PRIMARY_LOCK` over all time, projects
`%Y-%m` month strings, sorts ascending and takes the first month per user
(the minimum month string); `monthlyDistinctInRange` collects the distinct
primary-lock users of each month within the window.  The route then builds
one row per month with `new` = users whose lifetime-first month equals the
month and `returning = Math.max(0, total - newCount)`. -/

/-- `$sort { m: 1 }` followed by `$first` per group: the least month
string of a non-empty list (`%Y-%m` strings sort chronologically). -/
def minMonth? : List String → Option String
  | [] => none
  | m :: ms => some (ms.foldl (fun a b => if b < a then b else a) m)

/-- The `firstMonthPerUser` facet restricted to one user: the user's
lifetime-first primary-lock month, `none` when the user has no
primary-lock entries. -/
def firstMonthOf (tz : TzEnv) (es : List Entry) (u : String) : Option String :=
  minMonth? (((primaryOnly es).filter (fun e => e.username == u)).map
    (fun e => tz.monthStr e.entryTime))

/-- The `monthlyDistinctInRange` facet restricted to month `m`: the
distinct primary-lock users active in that month within the window. -/
def monthUsers (tz : TzEnv) (es : List Entry) (rangeStart rangeEnd : Int)
    (m : String) : List String :=
  (((es.filter (fun e => matchWindow rangeStart rangeEnd e &&
      e.lockId == PRIMARY_LOCK)).filter
    (fun e => tz.monthStr e.entryTime == m)).map (fun e => e.username)).dedup

/-- One `cohortByMonth` row (`newCount` is the JS field `new`). -/
structure CohortRow where
  month : String
  newCount : Int
  returning : Int
deriving DecidableEq, Repr

/-- The `cohortByMonth` row for month `m`: count the month's users whose
lifetime-first month is `m` (a `Map.get` miss counts as returning), with
`returning = Math.max(0, total - newCount)`. -/
def cohortRow (tz : TzEnv) (es : List Entry) (rangeStart rangeEnd : Int)
    (m : String) : CohortRow :=
  let users := monthUsers tz es rangeStart rangeEnd m
  let newCount : Int := users.countP (fun u => firstMonthOf tz es u == some m)
  let total : Int := users.length
  { month := m, newCount := newCount, returning := max 0 (total - newCount) }

/-- The months present in the window (the `$group` keys of
`monthlyDistinctInRange`), and the produced `cohortByMonth` rows. -/
def cohortByMonth (tz : TzEnv) (es : List Entry) (rangeStart rangeEnd : Int) :
    List CohortRow :=
  (((es.filter (fun e => matchWindow rangeStart rangeEnd e &&
      e.lockId == PRIMARY_LOCK)).map
    (fun e => tz.monthStr e.entryTime)).dedup).map
    (cohortRow tz es rangeStart rangeEnd)

/-- Claim C10: every cohort month row has `new ≥ 0`, `returning ≥ 0`, and
`new + returning` equal to the number of distinct primary-lock users
active in that month within the window, with `new` counting exactly the
users whose lifetime-first month equals the month and `returning` exactly
the others. -/
theorem cohort_new_returning_partition (tz : TzEnv) (es : List Entry)
    (rangeStart rangeEnd : Int) (m : String) :
    0 ≤ (cohortRow tz es rangeStart rangeEnd m).newCount ∧
    0 ≤ (cohortRow tz es rangeStart rangeEnd m).returning ∧
    (cohortRow tz es rangeStart rangeEnd m).newCount +
      (cohortRow tz es rangeStart rangeEnd m).returning =
      (monthUsers tz es rangeStart rangeEnd m).length ∧
    (cohortRow tz es rangeStart rangeEnd m).newCount =
      ((monthUsers tz es rangeStart rangeEnd m).countP
        (fun u => firstMonthOf tz es u == some m) : Int) ∧
    (cohortRow tz es rangeStart rangeEnd m).returning =
      ((monthUsers tz es rangeStart rangeEnd m).countP
        (fun u => !(firstMonthOf tz es u == some m)) : Int) ∧
    (monthUsers tz es rangeStart rangeEnd m).Nodup := by
  have hle : (monthUsers tz es rangeStart rangeEnd m).countP
      (fun u => firstMonthOf tz es u == some m) ≤
      (monthUsers tz es rangeStart rangeEnd m).length :=
    List.countP_le_length _
  have hsplit := List.length_eq_countP_add_countP
    (fun u => firstMonthOf tz es u == some m)
    (monthUsers tz es rangeStart rangeEnd m)
  have hcong : (monthUsers tz es rangeStart rangeEnd m).countP
      (fun a => decide ¬((firstMonthOf tz es a == some m) = true)) =
      (monthUsers tz es rangeStart rangeEnd m).countP
      (fun u => !(firstMonthOf tz es u == some m)) := by
    have hfun : (fun a => decide ¬((firstMonthOf tz es a == some m) = true)) =
        (fun u => !(firstMonthOf tz es u == some m)) := by
      funext a
      cases h : firstMonthOf tz es a == some m <;> simp [h]
    rw [hfun]
  have hmax : max 0 (((monthUsers tz es rangeStart rangeEnd m).length : Int) -
      ((monthUsers tz es rangeStart rangeEnd m).countP
        (fun u => firstMonthOf tz es u == some m) : Int)) =
      ((monthUsers tz es rangeStart rangeEnd m).length : Int) -
      ((monthUsers tz es rangeStart rangeEnd m).countP
        (fun u => firstMonthOf tz es u == some m) : Int) := by
    apply max_eq_right
    omega
  refine ⟨?_, ?_, ?_, rfl, ?_, List.nodup_dedup _⟩
  · exact Int.natCast_nonneg _
  · exact le_max_left _ _
  · show ((monthUsers tz es rangeStart rangeEnd m).countP
        (fun u => firstMonthOf tz es u == some m) : Int) +
      max 0 (((monthUsers tz es rangeStart rangeEnd m).length : Int) -
        ((monthUsers tz es rangeStart rangeEnd m).countP
          (fun u => firstMonthOf tz es u == some m) : Int)) = _
    rw [hmax]
    omega
  · show max 0 (((monthUsers tz es rangeStart rangeEnd m).length : Int) -
        ((monthUsers tz es rangeStart rangeEnd m).countP
          (fun u => firstMonthOf tz es u == some m) : Int)) = _
    rw [hmax, ← hcong]
    omega

/-- Claim C3: for every ascending, deduplicated sequence of calendar days
fed to the streak calculator, the returned longest is at least the returned
current, and the empty sequence yields longest 0 and current 0. -/
theorem streak_longest_ge_current (days : List Int)
    (_hasc : days.Chain' (· < ·)) :
    (seasonStreakResult days).1 ≤ (seasonStreakResult days).2 ∧
      seasonStreakResult [] = (0, 0) := by
  refine ⟨?_, rfl⟩
  exact streakReduce_best_ge_curr days

/-- Witness for C3 at the concrete ascending day sequence
`[0, 86400000, 200000000]`. -/
theorem streak_longest_ge_current_witness :
    (seasonStreakResult [0, 86400000, 200000000]).1 ≤
      (seasonStreakResult [0, 86400000, 200000000]).2 ∧
      seasonStreakResult [] = (0, 0) :=
  streak_longest_ge_current [0, 86400000, 200000000]
    (by simp [List.chain'_cons])

end OzolsClub
